import Mathlib

/-!
A verification development for the `ClusterFoamTree.vue` component of the
`qry-codes-vue-foamtree` repository.

The component contributes two pieces of original logic:

* a pointer/wheel gesture translator (`onPointerDown`, `onPointerMove`,
  `onPointerUp`, `onWheel` in the `<script setup>` block) that turns raw
  pointer events into the `click` / `drag*` / `transform*` gesture verbs
  consumed by the FoamTree rendering library via
  `foamtree.value.trigger(...)`;
* a clustering orchestration function (`clusterResults`) that lazily builds
  a similarity graph once and re-partitions it whenever the similarity
  slider moves.

Both are embedded below as pure Lean functions over explicit state
(definitions first, all theorems after them).

Modelling conventions:

* JavaScript `number` arithmetic is modelled as exact rational / real
  arithmetic.  Euclidean distances (`Math.hypot`) are represented by their
  squares, which are rational: the code only compares a distance against the
  constant tolerance `6` (equivalent to comparing squares against `36`,
  both sides being nonnegative) and divides one distance by another (the
  quotient `√d / √b` is represented symbolically by the `ScaleVal` type
  below, which also has the non-finite IEEE values `Infinity` and `NaN`
  produced by an unguarded division by zero).
* The JavaScript `Map` (which iterates in insertion order: `set` of a fresh
  key appends, `set` of a present key updates in place, `delete` removes)
  is modelled as an insertion-ordered association list.
* `rel`, which translates client coordinates to container-local ones, is
  the identity here: event positions are taken to be container-local
  already.  The `foamtree.value` guard is dropped: we model the translator
  once the FoamTree instance exists.  The `secondary` payload flag is kept
  on the transform verbs (the pointer-path `transformend` omits it, which
  JavaScript reads as a falsy field).
-/

namespace FoamGesture

/-- A point in container-local coordinates (`rel ev`), with exact rational
coordinates standing for JavaScript numbers. -/
structure Pt where
  x : ℚ
  y : ℚ
deriving DecidableEq, Repr

/-- The squared Euclidean distance between two points.  The source computes
`Math.hypot(dx, dy)`; we carry the square, which is rational. -/
def distSq (a b : Pt) : ℚ :=
  (a.x - b.x) * (a.x - b.x) + (a.y - b.y) * (a.y - b.y)

/-- The `ev.pointerType` value as used by the handlers (`"mouse"` or `"touch"`). -/
inductive PtrType where
  | mouse
  | touch
deriving DecidableEq, Repr

/-- The value of the `scale` field of an emitted `transform` payload.
`sq q` stands for the real number `√q` (the pointer path computes
`dist / baseDist = √dSq / √bSq`, which equals `√(dSq / bSq)` for a nonzero
denominator); `rat q` is an exact rational (the wheel path's `1.03` and
`0.97`); `inf` and `nan` are IEEE `Infinity` (positive ÷ zero) and `NaN`
(zero ÷ zero). -/
inductive ScaleVal where
  | rat (q : ℚ)
  | sq (q : ℚ)
  | inf
  | nan
deriving DecidableEq, Repr

/-- Whether a scale value is a finite number (JavaScript `isFinite`). -/
def ScaleVal.isFinite : ScaleVal → Bool
  | .rat _ => true
  | .sq _ => true
  | .inf => false
  | .nan => false

/-- The real number a finite scale value denotes (`none` for the non-finite
IEEE values). -/
noncomputable def ScaleVal.toReal : ScaleVal → Option ℝ
  | .rat q => some (q : ℝ)
  | .sq q => some (Real.sqrt (q : ℝ))
  | .inf => none
  | .nan => none

/-- The JavaScript division `dist / baseDist`, both operands nonnegative
square roots of the given rationals: `√dSq / √bSq`.  For `bSq ≠ 0` this is
the real `√(dSq / bSq)`; division by zero yields `Infinity` for a positive
numerator and `NaN` for `0 / 0`, exactly as in IEEE arithmetic. -/
def jsDivSqrt (dSq bSq : ℚ) : ScaleVal :=
  if bSq = 0 then (if dSq = 0 then .nan else .inf) else .sq (dSq / bSq)

/-- A gesture event passed to `foamtree.value.trigger`.  Each carries the
position of its payload; the transform verbs also carry the `secondary`
flag and (for `transform`) the computed `scale`. -/
inductive Gesture where
  | click (p : Pt)
  | dragstart (p : Pt)
  | drag (p : Pt)
  | dragend (p : Pt)
  | transformstart (p : Pt) (secondary : Bool)
  | transform (p : Pt) (scale : ScaleVal) (secondary : Bool)
  | transformend (p : Pt) (secondary : Bool)
deriving DecidableEq, Repr

/-- A raw input event delivered by the host surface.  `pointerdown`,
`pointerup` and `pointercancel` carry the device type and mouse button of
the native event (the handlers only consult them where the source does);
`wheel` carries `deltaY`. -/
inductive InputEvent where
  | pointerdown (id : ℕ) (ty : PtrType) (button : ℤ) (p : Pt)
  | pointermove (id : ℕ) (p : Pt)
  | pointerup (id : ℕ) (ty : PtrType) (button : ℤ) (p : Pt)
  | pointercancel (id : ℕ) (ty : PtrType) (button : ℤ) (p : Pt)
  | wheel (p : Pt) (deltaY : ℚ)
deriving DecidableEq, Repr

/-! ### Insertion-ordered maps (JavaScript `Map`) -/

/-- JavaScript `Map.prototype.get`. -/
def mapGet (k : ℕ) : List (ℕ × α) → Option α
  | [] => none
  | (k', v) :: rest => if k = k' then some v else mapGet k rest

/-- JavaScript `Map.prototype.set`: update in place if the key is present, else append
(JavaScript `Map` preserves the original insertion position on update). -/
def mapSet (k : ℕ) (v : α) : List (ℕ × α) → List (ℕ × α)
  | [] => [(k, v)]
  | (k', v') :: rest => if k = k' then (k, v) :: rest else (k', v') :: mapSet k v rest

/-- JavaScript `Map.prototype.delete`. -/
def mapDelete (k : ℕ) (l : List (ℕ × α)) : List (ℕ × α) :=
  l.filter (fun kv => kv.1 ≠ k)

/-- The keys of a map, in iteration order. -/
def mapKeys (l : List (ℕ × α)) : List ℕ :=
  l.map Prod.fst

/-! ### Gesture translator state -/

/-- The mutable state of the gesture translator: the `pointers` map
(`pointerId ↦ (current position, device type)`), the `startPos` map
(`pointerId ↦ position at pointerdown`), `baseDist` (kept as its square),
and the `dragging` / `transforming` flags. -/
structure GState where
  pointers : List (ℕ × (Pt × PtrType))
  startPos : List (ℕ × Pt)
  baseDistSq : ℚ
  dragging : Bool
  transforming : Bool
deriving DecidableEq, Repr

/-- The initial state (`new Map()`, `new Map()`, `0`, `false`, `false`). -/
def initState : GState :=
  { pointers := [], startPos := [], baseDistSq := 0, dragging := false, transforming := false }

/-- Handler `onPointerDown`: ignore non-primary mouse buttons; record the pointer
and its start position; when two or more pointers are now active, take the
first two map values, record their distance as the baseline and emit
`transformstart` at the first one; otherwise clear `dragging`. -/
def onPointerDown (s : GState) (id : ℕ) (ty : PtrType) (button : ℤ) (p : Pt) :
    GState × List Gesture :=
  if ty = .mouse ∧ button ≠ 0 then (s, [])
  else
    let pointers := mapSet id (p, ty) s.pointers
    let startPos := mapSet id p s.startPos
    match pointers with
    | (_, a, _) :: (_, b, _) :: _ =>
        ({ pointers := pointers, startPos := startPos, baseDistSq := distSq a b,
           dragging := s.dragging, transforming := true },
         [.transformstart a true])
    | _ =>
        ({ pointers := pointers, startPos := startPos, baseDistSq := s.baseDistSq,
           dragging := false, transforming := s.transforming }, [])

/-- Handler `onPointerMove`: ignore untracked pointers; update the stored position;
with a single pointer and no transform in progress, set `dragging` and emit
`dragstart` once the distance from the start position exceeds the tap
tolerance, then emit `drag` while dragging; with exactly two pointers, emit
`transform` with scale `dist(a, b) / baseDist` over the first two map
values.  (A missing start position would make the source compare `NaN > 6`,
which is false; the `none` branch mirrors that.) -/
def onPointerMove (s : GState) (id : ℕ) (p : Pt) : GState × List Gesture :=
  match mapGet id s.pointers with
  | none => (s, [])
  | some (_, ty) =>
    let pointers := mapSet id (p, ty) s.pointers
    if pointers.length = 1 ∧ s.transforming = false then
      let crossed := match mapGet id s.startPos with
        | some sp => decide (36 < distSq p sp)
        | none => false
      if s.dragging = false ∧ crossed = true then
        ({ s with pointers := pointers, dragging := true }, [.dragstart p, .drag p])
      else if s.dragging then
        ({ s with pointers := pointers }, [.drag p])
      else
        ({ s with pointers := pointers }, [])
    else
      match pointers with
      | (_, a, _) :: (_, b, _) :: [] =>
          ({ s with pointers := pointers },
           [.transform a (jsDivSqrt (distSq a b) s.baseDistSq) true])
      | _ => ({ s with pointers := pointers }, [])

/-- Handler `onPointerUp` (also registered for `pointercancel`): emit `transformend`
and/or `dragend` according to the flags, remove the pointer from both maps,
emit `click` when neither flag is set, and reset both flags once no pointers
remain.  Note that the source applies no device-type or button filter
here. -/
def onPointerUp (s : GState) (id : ℕ) (p : Pt) : GState × List Gesture :=
  let e1 : List Gesture := if s.transforming then [.transformend p false] else []
  let e2 : List Gesture := if s.dragging then [.dragend p] else []
  let pointers := mapDelete id s.pointers
  let startPos := mapDelete id s.startPos
  let e3 : List Gesture := if s.dragging = false ∧ s.transforming = false then [.click p] else []
  if pointers.length = 0 then
    ({ pointers := pointers, startPos := startPos, baseDistSq := s.baseDistSq,
       dragging := false, transforming := false }, e1 ++ e2 ++ e3)
  else
    ({ pointers := pointers, startPos := startPos, baseDistSq := s.baseDistSq,
       dragging := s.dragging, transforming := s.transforming }, e1 ++ e2 ++ e3)

/-- Handler `onWheel`: independent of the pointer state, emit a complete
`transformstart` / `transform` / `transformend` bracket at the cursor with
scale `1.03` for a negative `deltaY` and `0.97` otherwise. -/
def onWheel (s : GState) (p : Pt) (deltaY : ℚ) : GState × List Gesture :=
  let scale : ScaleVal := if deltaY < 0 then .rat (103 / 100) else .rat (97 / 100)
  (s, [.transformstart p true, .transform p scale true, .transformend p true])

/-- One input event dispatched to its handler, mirroring the listener
registration in `onMounted` (`pointercancel` is wired to `onPointerUp`). -/
def step (s : GState) : InputEvent → GState × List Gesture
  | .pointerdown id ty button p => onPointerDown s id ty button p
  | .pointermove id p => onPointerMove s id p
  | .pointerup id _ _ p => onPointerUp s id p
  | .pointercancel id _ _ p => onPointerUp s id p
  | .wheel p deltaY => onWheel s p deltaY

/-- Run a sequence of input events, collecting all emitted gestures in
order. -/
def run (s : GState) : List InputEvent → GState × List Gesture
  | [] => (s, [])
  | e :: es =>
    let r := step s e
    let r' := run r.1 es
    (r'.1, r.2 ++ r'.2)

/-- The states the translator can actually be in: the initial state and
everything reachable from it by input events. -/
inductive Reachable : GState → Prop where
  | init : Reachable initState
  | step (e : InputEvent) {s : GState} : Reachable s → Reachable (FoamGesture.step s e).1

/-! ### Association-list lemmas -/

/-- The effect of `mapSet` on the key list, as a function on keys alone. -/
def insertKey (k : ℕ) : List ℕ → List ℕ
  | [] => [k]
  | k' :: rest => if k = k' then k :: rest else k' :: insertKey k rest

/-! ### The state invariant -/

/-- Shape invariant of reachable translator states: both maps track the same
pointer ids; both flags are clear when no pointer is active; two active
pointers force `transforming`; either flag requires an active pointer; and
`dragging` without `transforming` pins the pointer count to one. -/
def StateInv (s : GState) : Prop :=
  mapKeys s.pointers = mapKeys s.startPos ∧
  (s.pointers.length = 0 → s.dragging = false ∧ s.transforming = false) ∧
  (2 ≤ s.pointers.length → s.transforming = true) ∧
  (s.transforming = true → 1 ≤ s.pointers.length) ∧
  (s.dragging = true → 1 ≤ s.pointers.length) ∧
  (s.dragging = true → s.transforming = false → s.pointers.length = 1)

/-! ### Gesture classifiers and ordering of emissions -/

def isClick : Gesture → Bool
  | .click _ => true
  | _ => false

def isDrag : Gesture → Bool
  | .drag _ => true
  | _ => false

def isDragstart : Gesture → Bool
  | .dragstart _ => true
  | _ => false

def isDragend : Gesture → Bool
  | .dragend _ => true
  | _ => false

def isTransform : Gesture → Bool
  | .transform _ _ _ => true
  | _ => false

def isTransformstart : Gesture → Bool
  | .transformstart _ _ => true
  | _ => false

/-- Every occurrence of a `tgt` gesture in `l` is strictly preceded by some
`trig` gesture: at each index holding a `tgt`, the prefix before that index
already contains a `trig`. -/
def precededBy (tgt trig : Gesture → Bool) (l : List Gesture) : Prop :=
  ∀ i : Fin l.length, tgt (l.get i) = true → (l.take i.val).any trig = true

/-! ### `transformstart` precedes every `transform` -/

/-- Output-side invariant coupled to the state: the emissions so far order
every `transform` after some `transformstart`, and a transform in progress
means a `transformstart` has already been emitted. -/
def OutInv (s : GState) (out : List Gesture) : Prop :=
  precededBy isTransform isTransformstart out ∧
  (s.transforming = true → ∃ g ∈ out, isTransformstart g = true)

/-! ### Single-pointer gestures -/

/-- The translator state while a single pointer `id` is tracked: current
position `cur`, start position `st`, no transform in progress. -/
def onePtr (id : ℕ) (cur st : Pt) (ty : PtrType) (β : ℚ) (d : Bool) : GState :=
  { pointers := [(id, cur, ty)], startPos := [(id, st)], baseDistSq := β,
    dragging := d, transforming := false }

/-- The final reported position after a burst of moves (the current
position when the burst is empty). -/
def lastPos (cur : Pt) : List Pt → Pt
  | [] => cur
  | p :: ps => lastPos p ps

/-- The gestures a burst of single-pointer moves emits, starting from a
non-dragging state with start position `st`: nothing until the first
position beyond the tap tolerance, then `dragstart` plus a `drag`, then a
`drag` for every further move. -/
def singleEmits (st : Pt) : List Pt → List Gesture
  | [] => []
  | p :: ps =>
    if 36 < distSq p st then .dragstart p :: .drag p :: ps.map .drag
    else singleEmits st ps

/-- Whether some reported position exceeds the tap tolerance from `st`. -/
def crossedAny (st : Pt) (ms : List Pt) : Bool :=
  ms.any (fun p => decide (36 < distSq p st))

/-! ### Two-pointer gestures -/

/-- The translator state while two pointers are tracked, in insertion
order. -/
def twoPtr (id1 id2 : ℕ) (a b : Pt) (ty1 ty2 : PtrType) (sa sb : Pt) (β : ℚ) (d : Bool) :
    GState :=
  { pointers := [(id1, a, ty1), (id2, b, ty2)], startPos := [(id1, sa), (id2, sb)],
    baseDistSq := β, dragging := d, transforming := true }

/-- A move of the first (`first = true`) or second tracked pointer. -/
def moveEvt (id1 id2 : ℕ) : Bool × Pt → InputEvent
  | (first, p) => .pointermove (if first then id1 else id2) p

/-- The two tracked positions after a burst of two-pointer moves. -/
def trackTwo (a b : Pt) : List (Bool × Pt) → Pt × Pt
  | [] => (a, b)
  | (first, p) :: ms => trackTwo (if first then p else a) (if first then b else p) ms

/-- The gestures a burst of two-pointer moves emits, written exactly as the
specification describes them: each move yields one `transform` whose scale
is the current inter-pointer distance divided by the baseline distance
(both represented by their squares via `jsDivSqrt`), at the first tracked
pointer's position. -/
def twoPtrEmits (β : ℚ) (a b : Pt) : List (Bool × Pt) → List Gesture
  | [] => []
  | (first, p) :: ms =>
    let a' := if first then p else a
    let b' := if first then b else p
    .transform a' (jsDivSqrt (distSq a' b') β) true :: twoPtrEmits β a' b' ms

/-! ### Claim-shaped definitions -/

/-- The invariant claimed by the specification: `transforming` iff two or
more pointers are active, and `dragging` only with exactly one active
pointer that currently sits beyond the tap tolerance from its start. -/
def C1Claim (s : GState) : Prop :=
  (s.transforming = true ↔ 2 ≤ s.pointers.length) ∧
  (s.dragging = true → s.pointers.length = 1 ∧
    ∃ pr ∈ s.pointers, ∃ st, mapGet pr.1 s.startPos = some st ∧ 36 < distSq pr.2.1 st)

/-- A pointer event of a mouse with a non-primary button. -/
def nonPrimaryMouse : InputEvent → Prop
  | .pointerdown _ ty b _ => ty = .mouse ∧ b ≠ 0
  | .pointerup _ ty b _ => ty = .mouse ∧ b ≠ 0
  | .pointercancel _ ty b _ => ty = .mouse ∧ b ≠ 0
  | .pointermove _ _ => False
  | .wheel _ _ => False

/-- The claim that non-primary-button mouse events are ignored entirely:
any sequence of them leaves the translator in its initial state and emits
nothing. -/
def C6Claim : Prop :=
  ∀ es : List InputEvent, (∀ e ∈ es, nonPrimaryMouse e) →
    (run initState es).1 = initState ∧ (run initState es).2 = []

/-- A complete single-pointer session: down at `p0`, the listed moves, and
an up at `q`. -/
def singleTrace (id : ℕ) (ty : PtrType) (p0 : Pt) (ms : List Pt) (q : Pt) : List InputEvent :=
  .pointerdown id ty 0 p0 :: (ms.map (InputEvent.pointermove id) ++ [.pointerup id ty 0 q])

end FoamGesture

namespace FoamCluster

/-!
The clustering orchestration of `ClusterFoamTree.vue`: `clusterResults`,
the `onMounted` call, and the `watch(sliderSim)` handler.  The clustering
primitives (`buildSimilarityGraph`, `clusterByThreshold`, `mergeVectors`,
from `@andorsearch/qry-codes`) are external and are abstracted as function
parameters in a `Libs` record; the component props in use are collected in
`Props`.  Similarity scores are exact rationals; a `Uint8Array` vector is a
list of naturals.  `props.vectors[i]` is modelled with an empty-vector
default for an out-of-range index, and the nullary call
`props.minSliderSim()` is modelled as a plain rational.  The source's
single `forEach` pass updating `max` and `min` together is rendered as two
independent folds with the same initial values `0` and `1`; the computed
but unused `tooSmallClusters` binding of the source is dropped.
-/

/-- The similarity graph produced by the external library, as far as this
component observes it: a vector of per-cluster edge-score lists. -/
structure SimilarityGraph where
  edgeScores : List (List ℚ)
deriving DecidableEq, Repr

/-- A binary vector (`Uint8Array`). -/
abbrev Vec := List ℕ

/-- The exported `Cluster` record of `ClusterFoamTree.vue`. -/
structure Cluster where
  clusterIndex : ℕ
  indices : List ℕ
  mergedVector : Vec
  score : ℕ
deriving DecidableEq, Repr

/-- The external clustering library surface consumed by the component. -/
structure Libs where
  buildSimilarityGraph : List Vec → SimilarityGraph
  clusterByThreshold : SimilarityGraph → ℚ → List (List ℕ)
  mergeVectors : List Vec → Vec

/-- The component props that clustering reads. -/
structure Props where
  vectors : List Vec
  minClusterSim : ℚ
  minDocsPerCluster : ℕ
  minSliderSim : ℚ

/-- The reactive state read and written by `clusterResults` and the slider
watcher: the cached `simGraph` module-level variable, the slider bounds,
the current slider value and the cluster list. -/
structure CState where
  simGraph : Option SimilarityGraph
  minFoundSim : ℚ
  maxFoundSim : ℚ
  sliderSim : ℚ
  clusters : List Cluster
deriving DecidableEq, Repr

/-- A notification emitted to the host application. -/
inductive CEmit where
  | graphBuilt (g : SimilarityGraph)
deriving DecidableEq, Repr

/-- The state at component setup: no graph yet, bounds `0` / `1`,
slider at `props.minClusterSim`. -/
def initCState (P : Props) : CState :=
  { simGraph := none, minFoundSim := 0, maxFoundSim := 1,
    sliderSim := P.minClusterSim, clusters := [] }

/-- The tail of `clusterResults`: partition the graph at the current slider
value, drop clusters below `minDocsPerCluster`, build the `Cluster` records
(with `score = indices.length`) and sort them by descending score.  Only
the `clusters` field changes. -/
def computeClusters (L : Libs) (P : Props) (s : CState) (g : SimilarityGraph) : CState :=
  let clusteredIDs := (L.clusterByThreshold g s.sliderSim).filter
    (fun c => P.minDocsPerCluster ≤ c.length)
  let unsorted : List Cluster := clusteredIDs.mapIdx (fun clusterIndex clusterIndices =>
    { clusterIndex := clusterIndex, indices := clusterIndices,
      mergedVector := L.mergeVectors (clusterIndices.map (fun i => P.vectors.getD i [])),
      score := clusterIndices.length })
  { s with clusters := unsorted.mergeSort (fun a b => b.score ≤ a.score) }

/-- Function `clusterResults`: on the first call (no cached graph) build the graph,
derive the slider bounds from the edge scores, emit `similarityGraphBuilt`
and cache the graph; on every call, recompute the cluster list. -/
def clusterResults (L : Libs) (P : Props) (s : CState) : CState × List CEmit :=
  match s.simGraph with
  | some g => (computeClusters L P s g, [])
  | none =>
    let g := L.buildSimilarityGraph P.vectors
    let maxv := g.edgeScores.foldl (fun m c => c.foldl (fun m' sc => Max.max sc m') m) 0
    let minv := g.edgeScores.foldl (fun m c => c.foldl (fun m' sc => Min.min sc m') m) 1
    let s' := { s with
      simGraph := some g
      minFoundSim := Max.max P.minSliderSim minv
      maxFoundSim := maxv }
    (computeClusters L P s' g, [.graphBuilt g])

/-- The `watch(sliderSim)` handler: store the new value; re-cluster only
when it differs from `props.minClusterSim`. -/
def onSliderChange (L : Libs) (P : Props) (v : ℚ) (s : CState) : CState × List CEmit :=
  let s' := { s with sliderSim := v }
  if v ≠ P.minClusterSim then clusterResults L P s' else (s', [])

/-- A sequence of slider updates, collecting the emitted notifications. -/
def runSliders (L : Libs) (P : Props) (s : CState) : List ℚ → CState × List CEmit
  | [] => (s, [])
  | v :: vs =>
    let r := onSliderChange L P v s
    let r' := runSliders L P r.1 vs
    (r'.1, r.2 ++ r'.2)

/-- The `onMounted` call of `clusterResults` on the fresh state. -/
def mountEmits (L : Libs) (P : Props) : CState × List CEmit :=
  clusterResults L P (initCState P)

end FoamCluster

namespace FoamGesture

theorem mapKeys_mapSet (k : ℕ) (v : α) (l : List (ℕ × α)) :
    mapKeys (mapSet k v l) = insertKey k (mapKeys l) := by
  induction l with
  | nil => rfl
  | cons hd tl ih =>
    obtain ⟨k', v'⟩ := hd
    by_cases h : k = k'
    · simp [mapSet, mapKeys, insertKey, h]
    · simp only [mapSet, mapKeys, insertKey, h, if_neg h, List.map_cons]
      simpa [mapKeys] using ih

theorem insertKey_of_mem {k : ℕ} {ks : List ℕ} (h : k ∈ ks) : insertKey k ks = ks := by
  induction ks with
  | nil => cases h
  | cons k' rest ih =>
    by_cases hk : k = k'
    · simp [insertKey, hk]
    · have : k ∈ rest := by
        rcases List.mem_cons.mp h with h1 | h1
        · exact absurd h1 hk
        · exact h1
      simp [insertKey, hk, ih this]

theorem length_insertKey (k : ℕ) (ks : List ℕ) :
    (insertKey k ks).length = if k ∈ ks then ks.length else ks.length + 1 := by
  induction ks with
  | nil => simp [insertKey]
  | cons k' rest ih =>
    by_cases hk : k = k'
    · simp [insertKey, hk]
    · simp [insertKey, hk, ih]
      by_cases hm : k ∈ rest <;> simp [hm]

theorem mapGet_mem_keys {k : ℕ} {v : α} {l : List (ℕ × α)} (h : mapGet k l = some v) :
    k ∈ mapKeys l := by
  induction l with
  | nil => simp [mapGet] at h
  | cons hd tl ih =>
    obtain ⟨k', v'⟩ := hd
    by_cases hk : k = k'
    · simp [mapKeys, hk]
    · simp [mapGet, hk] at h
      simp [mapKeys]
      right
      simpa [mapKeys] using ih h

theorem mapKeys_mapDelete (k : ℕ) (l : List (ℕ × α)) :
    mapKeys (mapDelete k l) = (mapKeys l).filter (fun k' => k' ≠ k) := by
  induction l with
  | nil => rfl
  | cons hd tl ih =>
    obtain ⟨k', v'⟩ := hd
    by_cases hk : k' = k <;> simp [mapDelete, mapKeys, List.filter, hk] at ih ⊢ <;>
      simpa [mapDelete, mapKeys] using ih

theorem length_mapKeys (l : List (ℕ × α)) : (mapKeys l).length = l.length :=
  List.length_map l Prod.fst

theorem stateInv_init : StateInv initState := by
  refine ⟨rfl, fun _ => ⟨rfl, rfl⟩, ?_, ?_, ?_, ?_⟩ <;> simp [initState]

theorem mapSet_ne_nil (k : ℕ) (v : α) (l : List (ℕ × α)) : mapSet k v l ≠ [] := by
  cases l with
  | nil => simp [mapSet]
  | cons hd tl =>
    obtain ⟨k', v'⟩ := hd
    by_cases h : k = k' <;> simp [mapSet, h]

theorem stateInv_onPointerDown (s : GState) (id : ℕ) (ty : PtrType) (b : ℤ) (p : Pt)
    (h : StateInv s) : StateInv (onPointerDown s id ty b p).1 := by
  obtain ⟨hk, h0, h2, ht, hd, hdt⟩ := h
  by_cases hfil : ty = .mouse ∧ b ≠ 0
  · simpa [onPointerDown, hfil] using ⟨hk, h0, h2, ht, hd, hdt⟩
  · have hkeys : mapKeys (mapSet id (p, ty) s.pointers) = mapKeys (mapSet id p s.startPos) := by
      rw [mapKeys_mapSet, mapKeys_mapSet, hk]
    rcases hps : mapSet id (p, ty) s.pointers with _ | ⟨⟨k1, a1, t1⟩, tl⟩
    · exact absurd hps (mapSet_ne_nil id (p, ty) s.pointers)
    · rcases htl : tl with _ | ⟨⟨k2, a2, t2⟩, tl2⟩
      · subst htl
        rw [hps] at hkeys
        refine ⟨by simpa [onPointerDown, hfil, hps] using hkeys, ?_, ?_, ?_, ?_, ?_⟩ <;>
          simp [onPointerDown, hfil, hps]
      · subst htl
        rw [hps] at hkeys
        refine ⟨by simpa [onPointerDown, hfil, hps] using hkeys, ?_, ?_, ?_, ?_, ?_⟩ <;>
          simp [onPointerDown, hfil, hps]

/-- The possible outcomes of `onPointerMove` on the state: either the event
is ignored, or only the stored position changes, or additionally `dragging`
is set (which the source only does with a single pointer and no transform in
progress). -/
theorem onPointerMove_cases (s : GState) (id : ℕ) (p : Pt) :
    (onPointerMove s id p).1 = s ∨
    ∃ v, mapGet id s.pointers = some v ∧
      ((onPointerMove s id p).1 = { s with pointers := mapSet id (p, v.2) s.pointers } ∨
       ((onPointerMove s id p).1 =
          { s with pointers := mapSet id (p, v.2) s.pointers, dragging := true } ∧
        (mapSet id (p, v.2) s.pointers).length = 1 ∧ s.transforming = false)) := by
  rcases hget : mapGet id s.pointers with _ | ⟨q, ty⟩
  · left
    simp [onPointerMove, hget]
  · right
    refine ⟨(q, ty), rfl, ?_⟩
    by_cases h1 : (mapSet id (p, ty) s.pointers).length = 1 ∧ s.transforming = false
    · rcases hsp : mapGet id s.startPos with _ | sp
      · left
        by_cases hdg : s.dragging = true
        · simp [onPointerMove, hget, h1, hsp, hdg]
        · simp [onPointerMove, hget, h1, hsp, hdg]
      · by_cases hdg : s.dragging = true
        · left
          simp [onPointerMove, hget, h1, hsp, hdg]
        · by_cases hcr : 36 < distSq p sp
          · right
            refine ⟨?_, h1.1, h1.2⟩
            simp [onPointerMove, hget, h1, hsp, hdg, hcr]
          · left
            simp [onPointerMove, hget, h1, hsp, hdg, hcr]
    · left
      rcases hps : mapSet id (p, ty) s.pointers with
        _ | ⟨⟨k1, a1, t1⟩, _ | ⟨⟨k2, a2, t2⟩, _ | ⟨c, tl⟩⟩⟩
      · exact absurd hps (mapSet_ne_nil id (p, ty) s.pointers)
      · have hl : (mapSet id (p, ty) s.pointers).length = 1 := by rw [hps]; rfl
        have htr : s.transforming = true := by
          rcases Bool.eq_false_or_eq_true s.transforming with h' | h'
          · exact h'
          · exact absurd ⟨hl, h'⟩ h1
        simp [onPointerMove, hget, hps, htr]
      · simp [onPointerMove, hget, hps]
      · simp [onPointerMove, hget, hps]

theorem stateInv_onPointerMove (s : GState) (id : ℕ) (p : Pt)
    (h : StateInv s) : StateInv (onPointerMove s id p).1 := by
  obtain ⟨hk, h0, h2, ht, hd, hdt⟩ := h
  rcases onPointerMove_cases s id p with hc | ⟨v, hget, hc | ⟨hc, hl1, htf⟩⟩
  · rw [hc]; exact ⟨hk, h0, h2, ht, hd, hdt⟩
  all_goals
    have hmem : id ∈ mapKeys s.pointers := mapGet_mem_keys hget
    have hkeys : mapKeys (mapSet id (p, v.2) s.pointers) = mapKeys s.pointers := by
      rw [mapKeys_mapSet, insertKey_of_mem hmem]
    have hlen : (mapSet id (p, v.2) s.pointers).length = s.pointers.length := by
      rw [← length_mapKeys, hkeys, length_mapKeys]
  · rw [hc]
    exact ⟨by simpa [hkeys] using hk, by simpa [hlen] using h0, by simpa [hlen] using h2,
      by simpa [hlen] using ht, by simpa [hlen] using hd, by simpa [hlen] using hdt⟩
  · rw [hc]
    refine ⟨by simpa [hkeys] using hk, ?_, ?_, ?_, ?_, ?_⟩
    · intro h'
      exfalso
      simp only at h'
      omega
    · intro h'
      exfalso
      simp only at h'
      omega
    · intro _
      simp only
      omega
    · intro _
      simp only
      omega
    · intro _ _
      simp only
      omega

theorem stateInv_onPointerUp (s : GState) (id : ℕ) (p : Pt)
    (h : StateInv s) : StateInv (onPointerUp s id p).1 := by
  obtain ⟨hk, h0, h2, ht, hd, hdt⟩ := h
  have hkeys : mapKeys (mapDelete id s.pointers) = mapKeys (mapDelete id s.startPos) := by
    rw [mapKeys_mapDelete, mapKeys_mapDelete, hk]
  have hle : (mapDelete id s.pointers).length ≤ s.pointers.length :=
    List.length_filter_le _ _
  by_cases hz : (mapDelete id s.pointers).length = 0
  · refine ⟨by simpa [onPointerUp, hz] using hkeys, ?_, ?_, ?_, ?_, ?_⟩ <;>
      simp [onPointerUp, hz]
  · refine ⟨by simpa [onPointerUp, hz] using hkeys, ?_, ?_, ?_, ?_, ?_⟩ <;>
      simp [onPointerUp, hz]
    · intro hge
      exact h2 (by omega)
    · intro htf
      omega
    · intro hdg
      omega
    · intro hdg htf
      have := hdt hdg htf
      omega

theorem stateInv_step (e : InputEvent) (s : GState) (h : StateInv s) :
    StateInv (step s e).1 := by
  cases e with
  | pointerdown id ty b p => exact stateInv_onPointerDown s id ty b p h
  | pointermove id p => exact stateInv_onPointerMove s id p h
  | pointerup id ty b p => exact stateInv_onPointerUp s id p h
  | pointercancel id ty b p => exact stateInv_onPointerUp s id p h
  | wheel p d => exact h

theorem reachable_stateInv {s : GState} (h : Reachable s) : StateInv s := by
  induction h with
  | init => exact stateInv_init
  | step e _ ih => exact stateInv_step e _ ih

theorem precededBy_nil (tgt trig : Gesture → Bool) : precededBy tgt trig [] := by
  intro i
  exact absurd i.isLt (by simp)

theorem precededBy_append_no_tgt {tgt trig : Gesture → Bool} {l1 l2 : List Gesture}
    (h : precededBy tgt trig l1) (h2 : ∀ g ∈ l2, tgt g = false) :
    precededBy tgt trig (l1 ++ l2) := by
  intro i hi
  by_cases hlt : i.val < l1.length
  · have hget : (l1 ++ l2).get i = l1.get ⟨i.val, hlt⟩ := by
      rw [List.get_eq_getElem, List.get_eq_getElem]
      exact List.getElem_append_left hlt
    have := h ⟨i.val, hlt⟩ (by rw [← hget]; exact hi)
    rw [List.take_append_eq_append_take, List.any_append]
    simp only [this, Bool.true_or]
  · exfalso
    have hge : l1.length ≤ i.val := Nat.le_of_not_lt hlt
    have hget : (l1 ++ l2).get i = l2.get ⟨i.val - l1.length, by
        have := i.isLt
        simp only [List.length_append] at this
        omega⟩ := by
      rw [List.get_eq_getElem, List.get_eq_getElem]
      exact List.getElem_append_right hge
    rw [hget] at hi
    have hlt2 : i.val - l1.length < l2.length := by
      have := i.isLt
      simp only [List.length_append] at this
      omega
    have hf := h2 (l2.get ⟨i.val - l1.length, hlt2⟩) (List.get_mem l2 _ hlt2)
    rw [hi] at hf
    exact absurd hf (by simp)

theorem precededBy_append_trig_mem {tgt trig : Gesture → Bool} {l1 l2 : List Gesture}
    (h : precededBy tgt trig l1) (h2 : ∃ g ∈ l1, trig g = true) :
    precededBy tgt trig (l1 ++ l2) := by
  intro i hi
  by_cases hlt : i.val < l1.length
  · have hget : (l1 ++ l2).get i = l1.get ⟨i.val, hlt⟩ := by
      rw [List.get_eq_getElem, List.get_eq_getElem]
      exact List.getElem_append_left hlt
    have := h ⟨i.val, hlt⟩ (by rw [← hget]; exact hi)
    rw [List.take_append_eq_append_take, List.any_append]
    simp only [this, Bool.true_or]
  · have hge : l1.length ≤ i.val := Nat.le_of_not_lt hlt
    rw [List.take_append_eq_append_take, List.any_append]
    obtain ⟨g, hg, htg⟩ := h2
    have : l1.take i.val = l1 := List.take_of_length_le hge
    rw [this]
    have : l1.any trig = true := List.any_eq_true.mpr ⟨g, hg, htg⟩
    simp only [this, Bool.true_or]

/-- A gesture with a `trig` head and a non-`tgt` head satisfies the ordering
for any tail: every later `tgt` is preceded by the head. -/
theorem precededBy_cons_trig {tgt trig : Gesture → Bool} {g : Gesture} (l : List Gesture)
    (htrig : trig g = true) (htgt : tgt g = false) :
    precededBy tgt trig (g :: l) := by
  intro i hi
  match i with
  | ⟨0, h0⟩ => simp [List.get] at hi; rw [hi] at htgt; simp at htgt
  | ⟨n + 1, hn⟩ =>
    simp only [Fin.val_mk, List.take_succ_cons, List.any_cons, htrig, Bool.true_or]

theorem run_nil (s : GState) : run s [] = (s, []) := rfl

theorem run_cons (s : GState) (e : InputEvent) (es : List InputEvent) :
    run s (e :: es) =
      ((run (step s e).1 es).1, (step s e).2 ++ (run (step s e).1 es).2) := rfl

theorem run_append (s : GState) (es1 es2 : List InputEvent) :
    run s (es1 ++ es2) =
      ((run (run s es1).1 es2).1, (run s es1).2 ++ (run (run s es1).1 es2).2) := by
  induction es1 generalizing s with
  | nil => simp [run_nil]
  | cons e es ih =>
    simp only [List.cons_append, run_cons, ih, List.append_assoc]

/-- All gestures `onPointerMove` can emit are transform-free unless at least
two pointers are active. -/
theorem onPointerMove_out (s : GState) (id : ℕ) (p : Pt) :
    (∀ g ∈ (onPointerMove s id p).2, isTransform g = false) ∨ 2 ≤ s.pointers.length := by
  rcases hget : mapGet id s.pointers with _ | ⟨q, ty⟩
  · left
    simp [onPointerMove, hget]
  · have hmem : id ∈ mapKeys s.pointers := mapGet_mem_keys hget
    have hlen : (mapSet id (p, ty) s.pointers).length = s.pointers.length := by
      rw [← length_mapKeys, mapKeys_mapSet, insertKey_of_mem hmem, length_mapKeys]
    by_cases h1 : (mapSet id (p, ty) s.pointers).length = 1 ∧ s.transforming = false
    · left
      rcases hsp : mapGet id s.startPos with _ | sp
      · by_cases hdg : s.dragging = true
        · intro g hg
          simp [onPointerMove, hget, h1, hsp, hdg] at hg
          simp [hg, isTransform]
        · intro g hg
          simp [onPointerMove, hget, h1, hsp, hdg] at hg
      · by_cases hdg : s.dragging = true
        · intro g hg
          simp [onPointerMove, hget, h1, hsp, hdg] at hg
          simp [hg, isTransform]
        · by_cases hcr : 36 < distSq p sp
          · intro g hg
            simp [onPointerMove, hget, h1, hsp, hdg, hcr] at hg
            rcases hg with hg | hg <;> simp [hg, isTransform]
          · intro g hg
            simp [onPointerMove, hget, h1, hsp, hdg, hcr] at hg
    · rcases hps : mapSet id (p, ty) s.pointers with
        _ | ⟨⟨k1, a1, t1⟩, _ | ⟨⟨k2, a2, t2⟩, _ | ⟨c, tl⟩⟩⟩
      · exact absurd hps (mapSet_ne_nil id (p, ty) s.pointers)
      · left
        have hl : (mapSet id (p, ty) s.pointers).length = 1 := by rw [hps]; rfl
        have htr : s.transforming = true := by
          rcases Bool.eq_false_or_eq_true s.transforming with h' | h'
          · exact h'
          · exact absurd ⟨hl, h'⟩ h1
        intro g hg
        simp [onPointerMove, hget, hps, htr] at hg
      · right
        have : (mapSet id (p, ty) s.pointers).length = 2 := by rw [hps]; rfl
        omega
      · right
        have : 3 ≤ (mapSet id (p, ty) s.pointers).length := by rw [hps]; simp
        omega

theorem onPointerMove_transforming (s : GState) (id : ℕ) (p : Pt) :
    (onPointerMove s id p).1.transforming = s.transforming := by
  rcases onPointerMove_cases s id p with hc | ⟨v, _, hc | ⟨hc, _, htf⟩⟩
  · rw [hc]
  · rw [hc]
  · rw [hc, htf]

theorem onPointerUp_transforming (s : GState) (id : ℕ) (p : Pt)
    (h : (onPointerUp s id p).1.transforming = true) : s.transforming = true := by
  by_cases hz : (mapDelete id s.pointers).length = 0
  · simp [onPointerUp, hz] at h
  · simpa [onPointerUp, hz] using h

theorem outInv_step (e : InputEvent) (s : GState) (out : List Gesture)
    (hs : StateInv s) (h : OutInv s out) : OutInv (step s e).1 (out ++ (step s e).2) := by
  obtain ⟨hord, hts⟩ := h
  cases e with
  | pointerdown id ty b p =>
    by_cases hfil : ty = .mouse ∧ b ≠ 0
    · constructor
      · exact precededBy_append_no_tgt hord (by simp [step, onPointerDown, hfil])
      · intro htr
        obtain ⟨g, hg, hgts⟩ := hts (by simpa [step, onPointerDown, hfil] using htr)
        exact ⟨g, List.mem_append_left _ hg, hgts⟩
    · rcases hps : mapSet id (p, ty) s.pointers with _ | ⟨⟨k1, a1, t1⟩, _ | ⟨⟨k2, a2, t2⟩, tl2⟩⟩
      · exact absurd hps (mapSet_ne_nil id (p, ty) s.pointers)
      · constructor
        · exact precededBy_append_no_tgt hord (by simp [step, onPointerDown, hfil, hps, isTransform])
        · intro htr
          have htr' : s.transforming = true := by
            simpa [step, onPointerDown, hfil, hps] using htr
          obtain ⟨g, hg, hgts⟩ := hts htr'
          exact ⟨g, List.mem_append_left _ hg, hgts⟩
      · constructor
        · exact precededBy_append_no_tgt hord
            (by simp [step, onPointerDown, hfil, hps, isTransform])
        · intro _
          refine ⟨.transformstart a1 true, List.mem_append_right _ ?_, rfl⟩
          simp [step, onPointerDown, hfil, hps]
  | pointermove id p =>
    constructor
    · rcases onPointerMove_out s id p with hnt | h2
      · exact precededBy_append_no_tgt hord (by simpa [step] using hnt)
      · have htr : s.transforming = true := hs.2.2.1 h2
        exact precededBy_append_trig_mem hord (hts htr)
    · intro htr
      have htr' : s.transforming = true := by
        rw [← onPointerMove_transforming s id p]
        simpa [step] using htr
      obtain ⟨g, hg, hgts⟩ := hts htr'
      exact ⟨g, List.mem_append_left _ hg, hgts⟩
  | pointerup id ty b p =>
    constructor
    · refine precededBy_append_no_tgt hord ?_
      intro g hg
      simp only [step, onPointerUp] at hg
      by_cases hz : (mapDelete id s.pointers).length = 0 <;>
        by_cases ha : s.transforming = true <;> by_cases hb : s.dragging = true <;>
        simp [hz, ha, hb] at hg <;> first
          | (rcases hg with hg | hg <;> simp [hg, isTransform])
          | simp [hg, isTransform]
    · intro htr
      have htr' : s.transforming = true := onPointerUp_transforming s id p (by simpa [step] using htr)
      obtain ⟨g, hg, hgts⟩ := hts htr'
      exact ⟨g, List.mem_append_left _ hg, hgts⟩
  | pointercancel id ty b p =>
    constructor
    · refine precededBy_append_no_tgt hord ?_
      intro g hg
      simp only [step, onPointerUp] at hg
      by_cases hz : (mapDelete id s.pointers).length = 0 <;>
        by_cases ha : s.transforming = true <;> by_cases hb : s.dragging = true <;>
        simp [hz, ha, hb] at hg <;> first
          | (rcases hg with hg | hg <;> simp [hg, isTransform])
          | simp [hg, isTransform]
    · intro htr
      have htr' : s.transforming = true := onPointerUp_transforming s id p (by simpa [step] using htr)
      obtain ⟨g, hg, hgts⟩ := hts htr'
      exact ⟨g, List.mem_append_left _ hg, hgts⟩
  | wheel p d =>
    constructor
    · have h1 : precededBy isTransform isTransformstart (out ++ [.transformstart p true]) :=
        precededBy_append_no_tgt hord (by simp [isTransform])
      have h2 : precededBy isTransform isTransformstart
          ((out ++ [.transformstart p true]) ++
            [.transform p (if d < 0 then .rat (103 / 100) else .rat (97 / 100)) true,
             .transformend p true]) :=
        precededBy_append_trig_mem h1
          ⟨.transformstart p true, List.mem_append_right _ (by simp), rfl⟩
      have heq : (out ++ [.transformstart p true]) ++
          [.transform p (if d < 0 then .rat (103 / 100) else .rat (97 / 100)) true,
           .transformend p true] = out ++ (step s (.wheel p d)).2 := by
        simp [step, onWheel, List.append_assoc]
      rw [← heq]
      exact h2
    · intro htr
      obtain ⟨g, hg, hgts⟩ := hts (by simpa [step, onWheel] using htr)
      exact ⟨g, List.mem_append_left _ hg, hgts⟩

theorem run_outInv (es : List InputEvent) (s : GState) (out : List Gesture)
    (hs : StateInv s) (h : OutInv s out) :
    OutInv (run s es).1 (out ++ (run s es).2) := by
  induction es generalizing s out with
  | nil => simpa [run_nil] using h
  | cons e es ih =>
    rw [run_cons]
    have := ih (step s e).1 (out ++ (step s e).2) (stateInv_step e s hs) (outInv_step e s out hs h)
    simpa [List.append_assoc] using this

theorem step_down_initState (id : ℕ) (ty : PtrType) (p : Pt) :
    step initState (.pointerdown id ty 0 p) = (onePtr id p p ty 0 false, []) := by
  simp [step, onPointerDown, initState, mapSet, onePtr]

theorem step_move_onePtr_within (id : ℕ) (ty : PtrType) (cur st p : Pt) (β : ℚ)
    (hp : ¬ 36 < distSq p st) :
    step (onePtr id cur st ty β false) (.pointermove id p) = (onePtr id p st ty β false, []) := by
  simp [step, onPointerMove, onePtr, mapGet, mapSet, hp]

theorem step_move_onePtr_cross (id : ℕ) (ty : PtrType) (cur st p : Pt) (β : ℚ)
    (hp : 36 < distSq p st) :
    step (onePtr id cur st ty β false) (.pointermove id p) =
      (onePtr id p st ty β true, [.dragstart p, .drag p]) := by
  simp [step, onPointerMove, onePtr, mapGet, mapSet, hp]

theorem step_move_onePtr_dragging (id : ℕ) (ty : PtrType) (cur st p : Pt) (β : ℚ) :
    step (onePtr id cur st ty β true) (.pointermove id p) =
      (onePtr id p st ty β true, [.drag p]) := by
  simp [step, onPointerMove, onePtr, mapGet, mapSet]

/-- While dragging, every move just emits `drag` at the reported position. -/
theorem run_moves_dragging (id : ℕ) (ty : PtrType) (st : Pt) (β : ℚ) (ms : List Pt) (cur : Pt) :
    run (onePtr id cur st ty β true) (ms.map (InputEvent.pointermove id)) =
      (onePtr id (lastPos cur ms) st ty β true, ms.map .drag) := by
  induction ms generalizing cur with
  | nil => simp [run_nil, lastPos]
  | cons p ps ih =>
    rw [List.map_cons, run_cons, step_move_onePtr_dragging, ih p]
    simp [lastPos]

/-- A burst of single-pointer moves from a fresh (non-dragging) state:
the final state is dragging iff some position crossed the tolerance, and the
emissions are exactly `singleEmits`. -/
theorem run_moves_single (id : ℕ) (ty : PtrType) (st : Pt) (β : ℚ) (ms : List Pt) (cur : Pt) :
    run (onePtr id cur st ty β false) (ms.map (InputEvent.pointermove id)) =
      (onePtr id (lastPos cur ms) st ty β (crossedAny st ms), singleEmits st ms) := by
  induction ms generalizing cur with
  | nil => simp [run_nil, crossedAny, singleEmits, lastPos]
  | cons p ps ih =>
    by_cases hc : 36 < distSq p st
    · rw [List.map_cons, run_cons, step_move_onePtr_cross id ty cur st p β hc,
        run_moves_dragging]
      simp [lastPos, crossedAny, singleEmits, hc]
    · rw [List.map_cons, run_cons, step_move_onePtr_within id ty cur st p β hc, ih p]
      simp [lastPos, crossedAny, singleEmits, hc]

theorem step_up_onePtr (id : ℕ) (ty : PtrType) (b : ℤ) (cur st q : Pt) (β : ℚ) (d : Bool) :
    step (onePtr id cur st ty β d) (.pointerup id ty b q) =
      ({ initState with baseDistSq := β },
       if d then [.dragend q] else [.click q]) := by
  by_cases hd : d = true <;>
    simp [step, onPointerUp, onePtr, mapDelete, initState, hd, List.filter]

theorem run_two_downs (id1 id2 : ℕ) (ty1 ty2 : PtrType) (p1 p2 : Pt) (hne : id1 ≠ id2) :
    run initState [.pointerdown id1 ty1 0 p1, .pointerdown id2 ty2 0 p2] =
      (twoPtr id1 id2 p1 p2 ty1 ty2 p1 p2 (distSq p1 p2) false, [.transformstart p1 true]) := by
  have h2 : id2 ≠ id1 := fun h => hne h.symm
  rw [run_cons, step_down_initState]
  simp [run_cons, run_nil, step, onPointerDown, onePtr, mapSet, h2, twoPtr]

theorem step_move_twoPtr (id1 id2 : ℕ) (a b : Pt) (ty1 ty2 : PtrType) (sa sb : Pt) (β : ℚ)
    (d : Bool) (hne : id1 ≠ id2) (first : Bool) (p : Pt) :
    step (twoPtr id1 id2 a b ty1 ty2 sa sb β d) (moveEvt id1 id2 (first, p)) =
      (twoPtr id1 id2 (if first then p else a) (if first then b else p) ty1 ty2 sa sb β d,
       [.transform (if first then p else a)
          (jsDivSqrt (distSq (if first then p else a) (if first then b else p)) β) true]) := by
  have h2 : id2 ≠ id1 := fun h => hne h.symm
  cases first with
  | true => simp [moveEvt, step, onPointerMove, twoPtr, mapGet, mapSet, hne, h2]
  | false => simp [moveEvt, step, onPointerMove, twoPtr, mapGet, mapSet, hne, h2]

theorem run_twoPtr_moves (id1 id2 : ℕ) (ty1 ty2 : PtrType) (sa sb : Pt) (β : ℚ) (d : Bool)
    (hne : id1 ≠ id2) (ms : List (Bool × Pt)) (a b : Pt) :
    run (twoPtr id1 id2 a b ty1 ty2 sa sb β d) (ms.map (moveEvt id1 id2)) =
      (twoPtr id1 id2 (trackTwo a b ms).1 (trackTwo a b ms).2 ty1 ty2 sa sb β d,
       twoPtrEmits β a b ms) := by
  induction ms generalizing a b with
  | nil => simp [run_nil, trackTwo, twoPtrEmits]
  | cons m ms ih =>
    obtain ⟨first, p⟩ := m
    rw [List.map_cons, run_cons, step_move_twoPtr id1 id2 a b ty1 ty2 sa sb β d hne first p,
      ih]
    simp [trackTwo, twoPtrEmits]

/-! ### Scale arithmetic -/

theorem distSq_self (p : Pt) : distSq p p = 0 := by
  simp [distSq]

theorem distSq_nonneg (a b : Pt) : 0 ≤ distSq a b :=
  add_nonneg (mul_self_nonneg _) (mul_self_nonneg _)

theorem jsDivSqrt_self {d : ℚ} (hd : d ≠ 0) : jsDivSqrt d d = .sq 1 := by
  simp [jsDivSqrt, hd, div_self hd]

theorem jsDivSqrt_zero_isFinite (d : ℚ) : (jsDivSqrt d 0).isFinite = false := by
  by_cases hd : d = 0 <;> simp [jsDivSqrt, hd, ScaleVal.isFinite]

theorem toReal_sq_one : ScaleVal.toReal (.sq 1) = some 1 := by
  simp [ScaleVal.toReal]

/-- For a positive baseline, the represented scale is exactly the current
distance divided by the baseline distance. -/
theorem toReal_jsDivSqrt (dSq bSq : ℚ) (hd : 0 ≤ dSq) (hb : 0 < bSq) :
    ScaleVal.toReal (jsDivSqrt dSq bSq) =
      some (Real.sqrt (dSq : ℝ) / Real.sqrt (bSq : ℝ)) := by
  have hb' : bSq ≠ 0 := ne_of_gt hb
  have hd' : (0 : ℝ) ≤ (dSq : ℝ) := by exact_mod_cast hd
  simp only [jsDivSqrt, hb', if_false, ScaleVal.toReal]
  rw [Rat.cast_div, Real.sqrt_div hd']

/-- Every transform produced over a zero baseline carries a non-finite
scale. -/
theorem twoPtrEmits_zero_nonfinite (ms : List (Bool × Pt)) (a b : Pt) :
    ∀ g ∈ twoPtrEmits 0 a b ms, ∀ (q : Pt) (sc : ScaleVal) (sec : Bool),
      g = .transform q sc sec → sc.isFinite = false := by
  induction ms generalizing a b with
  | nil => simp [twoPtrEmits]
  | cons m ms ih =>
    obtain ⟨first, p⟩ := m
    intro g hg q sc sec hgeq
    simp only [twoPtrEmits, List.mem_cons] at hg
    rcases hg with hg | hg
    · rw [hg] at hgeq
      injection hgeq with _ h2 _
      rw [← h2]
      exact jsDivSqrt_zero_isFinite _
    · exact ih _ _ g hg q sc sec hgeq

/-! ### Facts about `singleEmits` -/

theorem crossedAny_eq_false {st : Pt} {ms : List Pt} (h : ∀ p ∈ ms, distSq p st ≤ 36) :
    crossedAny st ms = false := by
  simp only [crossedAny, List.any_eq_false, decide_eq_true_eq]
  intro p hp
  exact not_lt.mpr (h p hp)

theorem crossedAny_eq_true {st : Pt} {ms : List Pt} (h : ∃ p ∈ ms, 36 < distSq p st) :
    crossedAny st ms = true := by
  obtain ⟨p, hp, hd⟩ := h
  simp only [crossedAny, List.any_eq_true, decide_eq_true_eq]
  exact ⟨p, hp, hd⟩

theorem singleEmits_eq_nil {st : Pt} {ms : List Pt} (h : ∀ p ∈ ms, distSq p st ≤ 36) :
    singleEmits st ms = [] := by
  induction ms with
  | nil => rfl
  | cons p ps ih =>
    have hp : ¬ 36 < distSq p st := not_lt.mpr (h p (by simp))
    rw [singleEmits, if_neg hp]
    exact ih (fun q hq => h q (by simp [hq]))

theorem singleEmits_mem {st : Pt} {ms : List Pt} :
    ∀ g ∈ singleEmits st ms, isDragstart g = true ∨ isDrag g = true := by
  induction ms with
  | nil => simp [singleEmits]
  | cons p ps ih =>
    intro g hg
    by_cases hc : 36 < distSq p st
    · rw [singleEmits, if_pos hc] at hg
      rcases List.mem_cons.mp hg with rfl | hg
      · left; rfl
      · rcases List.mem_cons.mp hg with rfl | hg
        · right; rfl
        · obtain ⟨r, _, rfl⟩ := List.mem_map.mp hg
          right; rfl
    · rw [singleEmits, if_neg hc] at hg
      exact ih g hg

theorem precededBy_singleEmits (st : Pt) (ms : List Pt) :
    precededBy isDrag isDragstart (singleEmits st ms) := by
  induction ms with
  | nil => exact precededBy_nil _ _
  | cons p ps ih =>
    by_cases hc : 36 < distSq p st
    · rw [singleEmits, if_pos hc]
      exact precededBy_cons_trig _ rfl rfl
    · rw [singleEmits, if_neg hc]
      exact ih

theorem reachable_run (es : List InputEvent) (s : GState) (h : Reachable s) :
    Reachable (run s es).1 := by
  induction es generalizing s with
  | nil => simpa [run_nil] using h
  | cons e es ih =>
    rw [run_cons]
    exact ih _ (Reachable.step e h)

/-! ### The claims -/

/-- C1, counterexample: after `down 1, move 1 beyond tolerance, down 2,
up 1`, the translator is in a reachable state with exactly one active
pointer yet `transforming = true` and `dragging = true` with that pointer
at its own start position — both conjuncts of the claimed invariant fail. -/
theorem c1_counterexample : ¬ (∀ s : GState, Reachable s → C1Claim s) := by
  intro h
  have hr : Reachable (run initState [.pointerdown 1 .touch 0 ⟨0, 0⟩,
      .pointermove 1 ⟨20, 0⟩, .pointerdown 2 .touch 0 ⟨9, 9⟩,
      .pointerup 1 .touch 0 ⟨20, 0⟩]).1 :=
    reachable_run _ _ Reachable.init
  have hc := h _ hr
  have ht : (run initState [.pointerdown 1 .touch 0 ⟨0, 0⟩,
      .pointermove 1 ⟨20, 0⟩, .pointerdown 2 .touch 0 ⟨9, 9⟩,
      .pointerup 1 .touch 0 ⟨20, 0⟩]).1.transforming = true := by
    norm_num [run_cons, run_nil, step, onPointerDown, onPointerMove, onPointerUp,
      mapGet, mapSet, mapDelete, initState, distSq]
  have hl : (run initState [.pointerdown 1 .touch 0 ⟨0, 0⟩,
      .pointermove 1 ⟨20, 0⟩, .pointerdown 2 .touch 0 ⟨9, 9⟩,
      .pointerup 1 .touch 0 ⟨20, 0⟩]).1.pointers.length = 1 := by
    norm_num [run_cons, run_nil, step, onPointerDown, onPointerMove, onPointerUp,
      mapGet, mapSet, mapDelete, initState, distSq]
  have h2 := hc.1.mp ht
  omega

/-- C1, amended: over reachable states, two or more active pointers force
`transforming`; `transforming` or `dragging` each require at least one
active pointer; `dragging` without `transforming` pins the count to one;
and both flags are false once no pointer is active.  (Neither flag is
cleared before the last pointer lifts, so the claimed iff and the claimed
dragging conditions do not hold.) -/
theorem c1_amended (s : GState) (h : Reachable s) :
    (2 ≤ s.pointers.length → s.transforming = true) ∧
    (s.transforming = true → 1 ≤ s.pointers.length) ∧
    (s.dragging = true → 1 ≤ s.pointers.length) ∧
    (s.dragging = true → s.transforming = false → s.pointers.length = 1) ∧
    (s.pointers.length = 0 → s.dragging = false ∧ s.transforming = false) := by
  obtain ⟨_, h0, h2, ht, hd, hdt⟩ := reachable_stateInv h
  exact ⟨h2, ht, hd, hdt, h0⟩

theorem c1_amended_witness :
    (2 ≤ initState.pointers.length → initState.transforming = true) ∧
    (initState.transforming = true → 1 ≤ initState.pointers.length) ∧
    (initState.dragging = true → 1 ≤ initState.pointers.length) ∧
    (initState.dragging = true → initState.transforming = false →
      initState.pointers.length = 1) ∧
    (initState.pointers.length = 0 → initState.dragging = false ∧
      initState.transforming = false) :=
  c1_amended initState Reachable.init

/-- C2: a single-pointer session whose moves all stay within the tap
tolerance of the start position emits exactly one `click`, at the release
position, and nothing else — in particular no drag gestures. -/
theorem c2_tap_click (id : ℕ) (ty : PtrType) (p0 q : Pt) (ms : List Pt)
    (hms : ∀ p ∈ ms, distSq p p0 ≤ 36) :
    (run initState (singleTrace id ty p0 ms q)).2 = [.click q] := by
  rw [singleTrace, run_cons, step_down_initState, run_append, run_moves_single,
    crossedAny_eq_false hms, singleEmits_eq_nil hms, run_cons, step_up_onePtr, run_nil]
  simp

theorem c2_tap_click_witness :
    (∀ p ∈ [Pt.mk 12 11], distSq p ⟨10, 10⟩ ≤ 36) ∧
    (run initState (singleTrace 1 .mouse ⟨10, 10⟩ [⟨12, 11⟩] ⟨12, 11⟩)).2 =
      [.click ⟨12, 11⟩] :=
  ⟨by norm_num [distSq], c2_tap_click 1 .mouse ⟨10, 10⟩ ⟨12, 11⟩ [⟨12, 11⟩]
    (by norm_num [distSq])⟩

/-- C3: a single-pointer session with some move beyond the tap tolerance
emits exactly one `dragend`, no `click`, and a `dragstart` before any
`drag`. -/
theorem c3_drag_session (id : ℕ) (ty : PtrType) (p0 q : Pt) (ms : List Pt)
    (h : ∃ p ∈ ms, 36 < distSq p p0) :
    (run initState (singleTrace id ty p0 ms q)).2.countP isDragend = 1 ∧
    (run initState (singleTrace id ty p0 ms q)).2.countP isClick = 0 ∧
    precededBy isDrag isDragstart (run initState (singleTrace id ty p0 ms q)).2 := by
  have hout : (run initState (singleTrace id ty p0 ms q)).2 =
      singleEmits p0 ms ++ [.dragend q] := by
    rw [singleTrace, run_cons, step_down_initState, run_append, run_moves_single,
      crossedAny_eq_true h, run_cons, step_up_onePtr, run_nil]
    simp
  rw [hout]
  refine ⟨?_, ?_, ?_⟩
  · rw [List.countP_append]
    have h0 : (singleEmits p0 ms).countP isDragend = 0 := by
      rw [List.countP_eq_zero]
      intro g hg
      rcases singleEmits_mem g hg with hg' | hg' <;> cases g <;>
        simp [isDragstart, isDrag, isDragend] at hg' ⊢
    rw [h0]
    rfl
  · rw [List.countP_append]
    have h0 : (singleEmits p0 ms).countP isClick = 0 := by
      rw [List.countP_eq_zero]
      intro g hg
      rcases singleEmits_mem g hg with hg' | hg' <;> cases g <;>
        simp [isDragstart, isDrag, isClick] at hg' ⊢
    rw [h0]
    rfl
  · exact precededBy_append_no_tgt (precededBy_singleEmits p0 ms) (by simp [isDrag])

theorem c3_drag_session_witness :
    (∃ p ∈ [Pt.mk 20 0, Pt.mk 21 0], 36 < distSq p ⟨0, 0⟩) ∧
    ((run initState (singleTrace 1 .mouse ⟨0, 0⟩ [⟨20, 0⟩, ⟨21, 0⟩] ⟨21, 0⟩)).2.countP
        isDragend = 1 ∧
     (run initState (singleTrace 1 .mouse ⟨0, 0⟩ [⟨20, 0⟩, ⟨21, 0⟩] ⟨21, 0⟩)).2.countP
        isClick = 0) :=
  ⟨by norm_num [distSq],
   (c3_drag_session 1 .mouse ⟨0, 0⟩ ⟨21, 0⟩ [⟨20, 0⟩, ⟨21, 0⟩] (by norm_num [distSq])).1,
   (c3_drag_session 1 .mouse ⟨0, 0⟩ ⟨21, 0⟩ [⟨20, 0⟩, ⟨21, 0⟩] (by norm_num [distSq])).2.1⟩

/-- C4: in every event sequence each `transform` emission is strictly
preceded by a `transformstart`; and when a second pointer lands at nonzero
distance from the first, a move reporting the unchanged position emits
`transform` with scale `baseDist / baseDist`, i.e. the real number 1. -/
theorem c4_transformstart_first :
    (∀ es : List InputEvent, precededBy isTransform isTransformstart (run initState es).2) ∧
    (∀ (id1 id2 : ℕ) (ty1 ty2 : PtrType) (p1 p2 : Pt), id1 ≠ id2 → distSq p1 p2 ≠ 0 →
      (run initState [.pointerdown id1 ty1 0 p1, .pointerdown id2 ty2 0 p2,
          .pointermove id2 p2]).2 =
        [.transformstart p1 true, .transform p1 (.sq 1) true] ∧
      ScaleVal.toReal (.sq 1) = some 1) := by
  constructor
  · intro es
    have h := run_outInv es initState [] stateInv_init
      ⟨precededBy_nil _ _, fun h' => absurd h' (by decide)⟩
    simpa using h.1
  · intro id1 id2 ty1 ty2 p1 p2 hne hd
    constructor
    · have htr : ([(false, p2)] : List (Bool × Pt)).map (moveEvt id1 id2) =
          [.pointermove id2 p2] := by simp [moveEvt]
      have : [InputEvent.pointerdown id1 ty1 0 p1, .pointerdown id2 ty2 0 p2,
          .pointermove id2 p2] =
          [InputEvent.pointerdown id1 ty1 0 p1, .pointerdown id2 ty2 0 p2] ++
            ([(false, p2)] : List (Bool × Pt)).map (moveEvt id1 id2) := by
        rw [htr]
        rfl
      rw [this, run_append, run_two_downs id1 id2 ty1 ty2 p1 p2 hne,
        run_twoPtr_moves id1 id2 ty1 ty2 p1 p2 (distSq p1 p2) false hne]
      simp [twoPtrEmits, jsDivSqrt_self hd]
    · rw [toReal_sq_one]

theorem c4_transformstart_first_witness :
    precededBy isTransform isTransformstart
      (run initState [.wheel ⟨0, 0⟩ 1]).2 ∧
    (run initState [.pointerdown 1 .touch 0 ⟨0, 0⟩, .pointerdown 2 .touch 0 ⟨1, 0⟩,
        .pointermove 2 ⟨1, 0⟩]).2 =
      [.transformstart ⟨0, 0⟩ true, .transform ⟨0, 0⟩ (.sq 1) true] :=
  ⟨c4_transformstart_first.1 _,
   (c4_transformstart_first.2 1 2 .touch .touch ⟨0, 0⟩ ⟨1, 0⟩ (by decide)
     (by norm_num [distSq])).1⟩

/-- C5: starting from two downs, every move of either pointer emits exactly
one `transform` whose scale is the current inter-pointer distance divided
by the baseline distance recorded at the second down (`twoPtrEmits` is that
closed form), and for a positive baseline the represented scale is the real
quotient of the two distances. -/
theorem c5_transform_scale (id1 id2 : ℕ) (ty1 ty2 : PtrType) (p1 p2 : Pt)
    (ms : List (Bool × Pt)) (hne : id1 ≠ id2) :
    (run initState ([.pointerdown id1 ty1 0 p1, .pointerdown id2 ty2 0 p2] ++
        ms.map (moveEvt id1 id2))).2 =
      .transformstart p1 true :: twoPtrEmits (distSq p1 p2) p1 p2 ms ∧
    (∀ dSq bSq : ℚ, 0 ≤ dSq → 0 < bSq →
      ScaleVal.toReal (jsDivSqrt dSq bSq) =
        some (Real.sqrt (dSq : ℝ) / Real.sqrt (bSq : ℝ))) := by
  constructor
  · rw [run_append, run_two_downs id1 id2 ty1 ty2 p1 p2 hne,
      run_twoPtr_moves id1 id2 ty1 ty2 p1 p2 (distSq p1 p2) false hne]
    simp
  · exact toReal_jsDivSqrt

theorem c5_transform_scale_witness :
    (run initState ([.pointerdown 1 .touch 0 ⟨0, 0⟩, .pointerdown 2 .touch 0 ⟨3, 0⟩] ++
        ([(true, Pt.mk 6 0)] : List (Bool × Pt)).map (moveEvt 1 2))).2 =
      Gesture.transformstart ⟨0, 0⟩ true ::
        twoPtrEmits (distSq ⟨0, 0⟩ ⟨3, 0⟩) ⟨0, 0⟩ ⟨3, 0⟩ [(true, ⟨6, 0⟩)] ∧
    ScaleVal.toReal (jsDivSqrt 4 1) =
      some (Real.sqrt ((4 : ℚ) : ℝ) / Real.sqrt ((1 : ℚ) : ℝ)) :=
  ⟨(c5_transform_scale 1 2 .touch .touch ⟨0, 0⟩ ⟨3, 0⟩ [(true, ⟨6, 0⟩)] (by decide)).1,
   (c5_transform_scale 1 2 .touch .touch ⟨0, 0⟩ ⟨3, 0⟩ [(true, ⟨6, 0⟩)] (by decide)).2
     4 1 (by norm_num) (by norm_num)⟩

/-- C6, counterexample: the two-event sequence `pointerdown` then
`pointerup` of mouse button 2 — all of whose events are non-primary mouse
events — makes the translator emit a `click`, so non-primary mouse input is
not ignored entirely. -/
theorem c6_counterexample : ¬ C6Claim := by
  intro h
  have hside : ∀ e ∈ [InputEvent.pointerdown 1 .mouse 2 ⟨3, 4⟩,
      InputEvent.pointerup 1 .mouse 2 ⟨3, 4⟩], nonPrimaryMouse e := by
    intro e he
    rcases List.mem_cons.mp he with rfl | he
    · exact ⟨rfl, by decide⟩
    · rcases List.mem_cons.mp he with rfl | he
      · exact ⟨rfl, by decide⟩
      · cases he
  have h2 := (h _ hside).2
  have h3 : (run initState [InputEvent.pointerdown 1 .mouse 2 ⟨3, 4⟩,
      InputEvent.pointerup 1 .mouse 2 ⟨3, 4⟩]).2 = [.click ⟨3, 4⟩] := by
    norm_num [run_cons, run_nil, step, onPointerDown, onPointerMove, onPointerUp,
      mapGet, mapSet, mapDelete, initState, distSq]
  rw [h3] at h2
  cases h2

/-- C6, amended: a non-primary-button mouse `pointerdown` is ignored
entirely (state unchanged, nothing emitted), but `pointerup` applies no
button filter at all — its behaviour is independent of the reported button,
so releasing a non-primary button can still emit `click`, `dragend` or
`transformend`. -/
theorem c6_amended :
    (∀ (s : GState) (id : ℕ) (b : ℤ) (p : Pt), b ≠ 0 →
       step s (.pointerdown id .mouse b p) = (s, [])) ∧
    (∀ (s : GState) (id : ℕ) (ty : PtrType) (b b' : ℤ) (p : Pt),
       step s (.pointerup id ty b p) = step s (.pointerup id ty b' p)) := by
  constructor
  · intro s id b p hb
    simp [step, onPointerDown, hb]
  · intro s id ty b b' p
    rfl

theorem c6_amended_witness :
    step initState (.pointerdown 1 .mouse 2 ⟨0, 0⟩) = (initState, []) ∧
    step initState (.pointerup 1 .mouse 2 ⟨0, 0⟩) =
      step initState (.pointerup 1 .mouse 0 ⟨0, 0⟩) :=
  ⟨c6_amended.1 initState 1 2 ⟨0, 0⟩ (by decide), c6_amended.2 initState 1 .mouse 2 0 ⟨0, 0⟩⟩

/-- C7: a wheel event never changes the pointer state and synchronously
emits exactly one `transformstart` / `transform` / `transformend` bracket
at the cursor, with scale 1.03 (a real greater than 1) for negative delta
and 0.97 (less than 1) otherwise. -/
theorem c7_wheel (s : GState) (p : Pt) (d : ℚ) :
    (step s (.wheel p d)).1 = s ∧
    (step s (.wheel p d)).2 =
      [.transformstart p true,
       .transform p (if d < 0 then ScaleVal.rat (103 / 100) else ScaleVal.rat (97 / 100)) true,
       .transformend p true] ∧
    (d < 0 → ScaleVal.toReal
        (if d < 0 then ScaleVal.rat (103 / 100) else ScaleVal.rat (97 / 100)) =
          some ((103 : ℝ) / 100) ∧ (1 : ℝ) < (103 : ℝ) / 100) ∧
    (0 < d → ScaleVal.toReal
        (if d < 0 then ScaleVal.rat (103 / 100) else ScaleVal.rat (97 / 100)) =
          some ((97 : ℝ) / 100) ∧ ((97 : ℝ) / 100) < 1) := by
  refine ⟨rfl, rfl, ?_, ?_⟩
  · intro hneg
    rw [if_pos hneg]
    constructor
    · simp [ScaleVal.toReal]
    · norm_num
  · intro hpos
    rw [if_neg (by exact not_lt.mpr (le_of_lt hpos))]
    constructor
    · simp [ScaleVal.toReal]
    · norm_num

theorem c7_wheel_witness :
    ((step initState (.wheel ⟨2, 3⟩ (-1))).1 = initState ∧
     ScaleVal.toReal
        (if (-1 : ℚ) < 0 then ScaleVal.rat (103 / 100) else ScaleVal.rat (97 / 100)) =
        some ((103 : ℝ) / 100) ∧ (1 : ℝ) < (103 : ℝ) / 100) ∧
    ((step initState (.wheel ⟨2, 3⟩ 1)).1 = initState ∧
     ScaleVal.toReal
        (if (1 : ℚ) < 0 then ScaleVal.rat (103 / 100) else ScaleVal.rat (97 / 100)) =
        some ((97 : ℝ) / 100) ∧ ((97 : ℝ) / 100) < 1) :=
  ⟨⟨(c7_wheel initState ⟨2, 3⟩ (-1)).1,
    (c7_wheel initState ⟨2, 3⟩ (-1)).2.2.1 (by norm_num)⟩,
   ⟨(c7_wheel initState ⟨2, 3⟩ 1).1,
    (c7_wheel initState ⟨2, 3⟩ 1).2.2.2 (by norm_num)⟩⟩

/-- C8: in every reachable state with no active pointers both maps are
empty and both flags are false (the idle state up to the retained
`baseDist` scratch value, which the claim does not mention); and
`pointercancel` is dispatched to exactly the same handler as `pointerup`. -/
theorem c8_idle_reset :
    (∀ s : GState, Reachable s → s.pointers.length = 0 →
       s.pointers = [] ∧ s.startPos = [] ∧ s.dragging = false ∧ s.transforming = false) ∧
    (∀ (s : GState) (id : ℕ) (ty : PtrType) (b : ℤ) (p : Pt),
       step s (.pointercancel id ty b p) = step s (.pointerup id ty b p)) := by
  constructor
  · intro s hs hlen
    obtain ⟨hk, h0, _, _, _, _⟩ := reachable_stateInv hs
    have hp : s.pointers = [] := List.length_eq_zero.mp hlen
    have hsp : s.startPos = [] := by
      have : mapKeys s.startPos = [] := by rw [← hk, hp]; rfl
      exact List.map_eq_nil_iff.mp this
    exact ⟨hp, hsp, (h0 hlen).1, (h0 hlen).2⟩
  · intro s id ty b p
    rfl

theorem c8_idle_reset_witness :
    ((run initState [.pointerdown 1 .touch 0 ⟨1, 2⟩, .pointerup 1 .touch 0 ⟨3, 4⟩]).1.pointers
        = [] ∧
     (run initState [.pointerdown 1 .touch 0 ⟨1, 2⟩,
        .pointerup 1 .touch 0 ⟨3, 4⟩]).1.startPos = [] ∧
     (run initState [.pointerdown 1 .touch 0 ⟨1, 2⟩,
        .pointerup 1 .touch 0 ⟨3, 4⟩]).1.dragging = false ∧
     (run initState [.pointerdown 1 .touch 0 ⟨1, 2⟩,
        .pointerup 1 .touch 0 ⟨3, 4⟩]).1.transforming = false) ∧
    step initState (.pointercancel 1 .touch 0 ⟨0, 0⟩) =
      step initState (.pointerup 1 .touch 0 ⟨0, 0⟩) :=
  ⟨c8_idle_reset.1 _ (reachable_run _ _ Reachable.init)
     (by norm_num [run_cons, run_nil, step, onPointerDown, onPointerMove, onPointerUp,
      mapGet, mapSet, mapDelete, initState, distSq]),
   c8_idle_reset.2 initState 1 .touch 0 ⟨0, 0⟩⟩

/-- C9: when the second pointer lands exactly on the first, the recorded
baseline (squared) distance is 0 and every `transform` emitted over the
following two-pointer moves carries a non-finite scale (`Infinity` or
`NaN`, from the unguarded division by zero). -/
theorem c9_zero_baseline (id1 id2 : ℕ) (ty1 ty2 : PtrType) (p : Pt)
    (ms : List (Bool × Pt)) (hne : id1 ≠ id2) :
    (run initState [.pointerdown id1 ty1 0 p, .pointerdown id2 ty2 0 p]).1.baseDistSq = 0 ∧
    (∀ g ∈ (run initState ([.pointerdown id1 ty1 0 p, .pointerdown id2 ty2 0 p] ++
        ms.map (moveEvt id1 id2))).2,
      ∀ (q : Pt) (sc : ScaleVal) (sec : Bool), g = .transform q sc sec →
        sc.isFinite = false) := by
  constructor
  · rw [run_two_downs id1 id2 ty1 ty2 p p hne]
    exact distSq_self p
  · intro g hg q sc sec hgeq
    rw [run_append, run_two_downs id1 id2 ty1 ty2 p p hne,
      run_twoPtr_moves id1 id2 ty1 ty2 p p (distSq p p) false hne] at hg
    simp only [distSq_self] at hg
    rcases List.mem_append.mp hg with hg | hg
    · rcases List.mem_cons.mp hg with rfl | hg
      · cases hgeq
      · cases hg
    · exact twoPtrEmits_zero_nonfinite ms p p g hg q sc sec hgeq

theorem c9_zero_baseline_witness :
    (run initState [.pointerdown 1 .touch 0 ⟨5, 5⟩, .pointerdown 2 .touch 0 ⟨5, 5⟩]).1.baseDistSq
      = 0 ∧
    (∀ g ∈ (run initState ([.pointerdown 1 .touch 0 ⟨5, 5⟩, .pointerdown 2 .touch 0 ⟨5, 5⟩] ++
        ([(true, Pt.mk 9 5)] : List (Bool × Pt)).map (moveEvt 1 2))).2,
      ∀ (q : Pt) (sc : ScaleVal) (sec : Bool), g = .transform q sc sec →
        sc.isFinite = false) :=
  ⟨(c9_zero_baseline 1 2 .touch .touch ⟨5, 5⟩ [(true, ⟨9, 5⟩)] (by decide)).1,
   (c9_zero_baseline 1 2 .touch .touch ⟨5, 5⟩ [(true, ⟨9, 5⟩)] (by decide)).2⟩

end FoamGesture

namespace FoamCluster

theorem clusterResults_cached (L : Libs) (P : Props) (s : CState) (g : SimilarityGraph)
    (h : s.simGraph = some g) :
    clusterResults L P s = (computeClusters L P s g, []) ∧
    (clusterResults L P s).1.simGraph = some g ∧
    (clusterResults L P s).1.minFoundSim = s.minFoundSim ∧
    (clusterResults L P s).1.maxFoundSim = s.maxFoundSim ∧
    (clusterResults L P s).2 = [] := by
  refine ⟨by simp [clusterResults, h], ?_, ?_, ?_, ?_⟩ <;>
    simp [clusterResults, h, computeClusters]

theorem clusterResults_first (L : Libs) (P : Props) (s : CState) (h : s.simGraph = none) :
    (clusterResults L P s).2 = [.graphBuilt (L.buildSimilarityGraph P.vectors)] ∧
    (clusterResults L P s).1.simGraph = some (L.buildSimilarityGraph P.vectors) := by
  constructor <;> simp [clusterResults, h, computeClusters]

theorem onSliderChange_cached (L : Libs) (P : Props) (v : ℚ) (s : CState)
    (g : SimilarityGraph) (h : s.simGraph = some g) :
    (onSliderChange L P v s).1.simGraph = some g ∧
    (onSliderChange L P v s).1.minFoundSim = s.minFoundSim ∧
    (onSliderChange L P v s).1.maxFoundSim = s.maxFoundSim ∧
    (onSliderChange L P v s).2 = [] := by
  by_cases hv : v ≠ P.minClusterSim <;>
    refine ⟨?_, ?_, ?_, ?_⟩ <;>
    simp [onSliderChange, hv, clusterResults, h, computeClusters]

theorem runSliders_cached (L : Libs) (P : Props) (vs : List ℚ) (s : CState)
    (g : SimilarityGraph) (h : s.simGraph = some g) :
    (runSliders L P s vs).1.simGraph = some g ∧
    (runSliders L P s vs).1.minFoundSim = s.minFoundSim ∧
    (runSliders L P s vs).1.maxFoundSim = s.maxFoundSim ∧
    (runSliders L P s vs).2 = [] := by
  induction vs generalizing s with
  | nil => simp [runSliders, h]
  | cons v vs ih =>
    obtain ⟨h1, h2, h3, h4⟩ := onSliderChange_cached L P v s g h
    obtain ⟨ih1, ih2, ih3, ih4⟩ := ih (onSliderChange L P v s).1 h1
    exact ⟨ih1, by rw [runSliders]; rw [ih2, h2], by rw [runSliders]; rw [ih3, h3],
      by rw [runSliders]; rw [h4, ih4]; rfl⟩

/-- C10: mounting builds the graph and emits `similarityGraphBuilt` exactly
once, caching the graph and fixing the slider bounds; any number of
subsequent slider changes leaves the cached graph and bounds unchanged and
emits no further notification; and any `clusterResults` call with a cached
graph changes only the cluster list and emits nothing. -/
theorem c10_graph_built_once (L : Libs) (P : Props) (vs : List ℚ) :
    (mountEmits L P).2 = [.graphBuilt (L.buildSimilarityGraph P.vectors)] ∧
    (mountEmits L P).1.simGraph = some (L.buildSimilarityGraph P.vectors) ∧
    (runSliders L P (mountEmits L P).1 vs).2 = [] ∧
    (runSliders L P (mountEmits L P).1 vs).1.simGraph = (mountEmits L P).1.simGraph ∧
    (runSliders L P (mountEmits L P).1 vs).1.minFoundSim = (mountEmits L P).1.minFoundSim ∧
    (runSliders L P (mountEmits L P).1 vs).1.maxFoundSim = (mountEmits L P).1.maxFoundSim ∧
    (∀ (s : CState) (g : SimilarityGraph), s.simGraph = some g →
      clusterResults L P s =
        ({ s with clusters := (computeClusters L P s g).clusters }, [])) := by
  have hinit : (initCState P).simGraph = none := rfl
  obtain ⟨hm1, hm2⟩ := clusterResults_first L P (initCState P) hinit
  obtain ⟨hr1, hr2, hr3, hr4⟩ :=
    runSliders_cached L P vs (mountEmits L P).1 (L.buildSimilarityGraph P.vectors) hm2
  refine ⟨hm1, hm2, hr4, ?_, hr2, hr3, ?_⟩
  · rw [hr1]
    exact hm2.symm
  · intro s g h
    have := (clusterResults_cached L P s g h).1
    rw [this]
    rfl

theorem c10_graph_built_once_witness :
    (mountEmits ⟨fun _ => ⟨[[1/2, 3/4]]⟩, fun _ _ => [[0]], fun _ => []⟩
        ⟨[[1]], 7/10, 1, 3/5⟩).2 =
      [.graphBuilt ⟨[[1/2, 3/4]]⟩] ∧
    (runSliders ⟨fun _ => ⟨[[1/2, 3/4]]⟩, fun _ _ => [[0]], fun _ => []⟩
        ⟨[[1]], 7/10, 1, 3/5⟩
        (mountEmits ⟨fun _ => ⟨[[1/2, 3/4]]⟩, fun _ _ => [[0]], fun _ => []⟩
          ⟨[[1]], 7/10, 1, 3/5⟩).1 [4/5, 7/10]).2 = [] :=
  ⟨(c10_graph_built_once ⟨fun _ => ⟨[[1/2, 3/4]]⟩, fun _ _ => [[0]], fun _ => []⟩
      ⟨[[1]], 7/10, 1, 3/5⟩ [4/5, 7/10]).1,
   (c10_graph_built_once ⟨fun _ => ⟨[[1/2, 3/4]]⟩, fun _ _ => [[0]], fun _ => []⟩
      ⟨[[1]], 7/10, 1, 3/5⟩ [4/5, 7/10]).2.2.1⟩

end FoamCluster
